import Mathlib

/-!
Shallow embedding of the resource pool implemented in `lib/pool.js`
(variant with `validateAsync`, `returnToHead` and `refreshIdle`).

Handles are modelled as natural numbers (JS object identity).  The pool's
numeric counter `_count` is modelled as `Int`, mirroring JS number
arithmetic including the explicit clamp-at-zero on the decrement paths.
Asynchronous operations (`factory.create`, `factory.validateAsync`, the
reap timer, `process.nextTick`) suspend in the source; they are modelled
by recording a pending obligation in the state whose completion is a
separate event of the step relation, matching the source's single-threaded
callback scheduling.  User-visible callback invocations, factory.destroy
invocations and log calls are recorded as an effect list.
-/

namespace SequelizePool

inductive LogLevel
  | verbose
  | info
  | warn
  | error
deriving DecidableEq, Repr

inductive PoolError
  | draining
  | factoryError (code : Nat)
  | timeout
deriving DecidableEq, Repr

/-- Result passed to a waiter callback: `cb(null, obj)` or `cb(error, null)`. -/
inductive CbResult
  | ok (obj : Nat)
  | err (e : PoolError)
deriving DecidableEq, Repr

inductive Effect
  | fulfilled (waiter : Nat) (res : CbResult)
  | destroyedRes (obj : Nat)
  | logMsg (level : LogLevel)
  | createCalled
deriving DecidableEq, Repr

/-- An entry of `_availableObjects`: `{ obj, timeout }` where `timeout`
is the absolute expiry instant `now + idleTimeoutMillis`. -/
structure Slot where
  obj : Nat
  timeout : Nat
deriving DecidableEq, Repr

/-- The two mutually exclusive validation configurations of the factory. -/
inductive ValidateMode
  | sync (validate : Nat → Bool)
  | async

/-- The configuration fields of the factory that the pool state machine
reads (after constructor defaulting). -/
structure Factory where
  max : Int
  min : Int
  idleTimeoutMillis : Nat
  returnToHead : Bool
  refreshIdle : Bool
  mode : ValidateMode

/-- Constructor validation: `min` integer ≥ 0, `max` integer > 0, `min ≤ max`. -/
def Factory.wellFormed (f : Factory) : Prop :=
  0 ≤ f.min ∧ 0 < f.max ∧ f.min ≤ f.max

structure PoolState where
  factory : Factory
  count : Int
  draining : Bool
  waitingClients : List Nat
  inUseObjects : List Nat
  availableObjects : List Slot
  asyncTestObjects : List Slot
  pendingCreates : Nat
  pendingTickDispense : Bool
  removeIdleScheduled : Bool
  removeIdleTimerPending : Bool

def initPool (f : Factory) : PoolState :=
  { factory := f
    count := 0
    draining := false
    waitingClients := []
    inUseObjects := []
    availableObjects := []
    asyncTestObjects := []
    pendingCreates := 0
    pendingTickDispense := false
    removeIdleScheduled := false
    removeIdleTimerPending := false }

/-- Embeds `_createResource`, synchronous part: increment `_count`, log, start
`factory.create` (its callback is the `createDone` event). -/
def createResource (s : PoolState) : PoolState × List Effect :=
  ({ s with count := s.count + 1, pendingCreates := s.pendingCreates + 1 },
   [Effect.logMsg .verbose, Effect.createCalled])

/-- Iterated `_createResource`, used by the `for` loop of `_ensureMinimum`. -/
def createN : Nat → PoolState → PoolState × List Effect
  | 0, s => (s, [])
  | n + 1, s =>
      let r := createResource s
      let r2 := createN n r.1
      (r2.1, r.2 ++ r2.2)

/-- Embeds `_ensureMinimum`. -/
def ensureMinimum (s : PoolState) : PoolState × List Effect :=
  if ¬ s.draining ∧ s.count < s.factory.min then
    createN (s.factory.min - s.count).toNat s
  else (s, [])

/-- Embeds `destroy(resource)`: decrement `_count` (clamped at 0), filter the
handle out of both lists, call `factory.destroy`, then `_ensureMinimum`. -/
def destroy (resource : Nat) (s : PoolState) : PoolState × List Effect :=
  let c := s.count - 1
  let c := if c < 0 then 0 else c
  let s1 := { s with
    count := c
    availableObjects := s.availableObjects.filter (fun o => o.obj != resource)
    inUseObjects := s.inUseObjects.filter (fun o => o != resource) }
  let r := ensureMinimum s1
  (r.1, [Effect.destroyedRes resource] ++ r.2)

/-- Embeds `_scheduleRemoveIdle`: arm the reap timer unless already scheduled. -/
def scheduleRemoveIdle (s : PoolState) : PoolState :=
  if ¬ s.removeIdleScheduled then
    { s with removeIdleScheduled := true, removeIdleTimerPending := true }
  else s

theorem createResource_availableObjects (s : PoolState) :
    (createResource s).1.availableObjects = s.availableObjects := rfl

theorem createN_availableObjects (n : Nat) (s : PoolState) :
    (createN n s).1.availableObjects = s.availableObjects := by
  induction n generalizing s with
  | zero => rfl
  | succ n ih => simpa [createN, createResource] using ih _

theorem ensureMinimum_availableObjects (s : PoolState) :
    (ensureMinimum s).1.availableObjects = s.availableObjects := by
  unfold ensureMinimum
  split
  · exact createN_availableObjects _ _
  · rfl

theorem destroy_availableObjects (resource : Nat) (s : PoolState) :
    (destroy resource s).1.availableObjects
      = s.availableObjects.filter (fun o => o.obj != resource) := by
  unfold destroy
  simp [ensureMinimum_availableObjects]

/-- The `while` loop of `_dispense` in synchronous-validate mode: examine
the head of `_availableObjects`; destroy it and continue if invalid;
otherwise shift it, move the handle to `_inUseObjects`, shift the head
waiter and fulfil it.  If the list empties, create when `count < max`. -/
def dispenseSyncLoop (validate : Nat → Bool) (s : PoolState) :
    PoolState × List Effect :=
  match h : s.availableObjects with
  | [] =>
      if s.count < s.factory.max then createResource s else (s, [])
  | c :: _ =>
      if validate c.obj then
        let s1 : PoolState := { s with
          availableObjects := s.availableObjects.tail
          inUseObjects := s.inUseObjects ++ [c.obj]
          waitingClients := s.waitingClients.tail }
        match s.waitingClients with
        | w :: _ => (s1, [Effect.logMsg .verbose, Effect.fulfilled w (.ok c.obj)])
        | [] => (s1, [Effect.logMsg .verbose])
      else
        let d := destroy c.obj s
        let r := dispenseSyncLoop validate d.1
        (r.1, [Effect.logMsg .verbose] ++ d.2 ++ r.2)
termination_by s.availableObjects.length
decreasing_by
  have hd := destroy_availableObjects c.obj s
  rw [hd, h]
  simp only [List.filter_cons, bne_self_eq_false, List.length_cons]
  exact Nat.lt_succ_of_le (List.length_filter_le _ _)

/-- The body of `doWhileAsync`'s `next` in asynchronous-validate mode:
if an available slot exists, shift it into `_asyncTestObjects` and start
`validateAsync` (completion is the `validateDone` event); otherwise the
final callback runs, creating when `count < max`. -/
def asyncNext (s : PoolState) : PoolState × List Effect :=
  match s.availableObjects with
  | [] =>
      if s.count < s.factory.max then createResource s else (s, [])
  | c :: rest =>
      ({ s with availableObjects := rest
                asyncTestObjects := s.asyncTestObjects ++ [c] },
       [Effect.logMsg .verbose])

/-- Embeds `_dispense`. -/
def dispense (s : PoolState) : PoolState × List Effect :=
  if s.waitingClients.length < 1 then (s, [Effect.logMsg .info])
  else
    match s.factory.mode with
    | .sync validate =>
        let r := dispenseSyncLoop validate s
        (r.1, Effect.logMsg .info :: r.2)
    | .async =>
        let r := asyncNext s
        (r.1, Effect.logMsg .info :: r.2)

/-- The insertion step of `_addResourceToAvailableObjects`:
`splice(0, 0, x)` at the head when `returnToHead`, `push(x)` otherwise. -/
def insertAvailable (slot : Slot) (s : PoolState) : PoolState :=
  if s.factory.returnToHead then
    { s with availableObjects := slot :: s.availableObjects }
  else
    { s with availableObjects := s.availableObjects ++ [slot] }

/-- Embeds `_addResourceToAvailableObjects`: wrap the handle with its expiry,
insert it, then `_dispense()` and `_scheduleRemoveIdle()`. -/
def addResourceToAvailableObjects (obj : Nat) (now : Nat) (s : PoolState) :
    PoolState × List Effect :=
  let slot : Slot := { obj := obj, timeout := now + s.factory.idleTimeoutMillis }
  let r := dispense (insertAvailable slot s)
  (scheduleRemoveIdle r.1, r.2)

/-- The callback passed to `factory.create` by `_createResource`:
shift the head waiter, then branch on the reported outcome. -/
def createDone (res : CbResult) (now : Nat) (s : PoolState) :
    PoolState × List Effect :=
  let s0 := { s with pendingCreates := s.pendingCreates - 1 }
  let clientCb := s0.waitingClients.head?
  let s1 := { s0 with waitingClients := s0.waitingClients.tail }
  match res with
  | .err e =>
      let c : Int := s1.count - 1
      let c : Int := if c < 0 then 0 else c
      let s2 := { s1 with count := c, pendingTickDispense := true }
      match clientCb with
      | some w => (s2, [Effect.fulfilled w (.err e)])
      | none => (s2, [])
  | .ok object =>
      let s2 := { s1 with inUseObjects := s1.inUseObjects ++ [object] }
      match clientCb with
      | some w => (s2, [Effect.fulfilled w (.ok object)])
      | none => addResourceToAvailableObjects object now s2

/-- The callback passed to `factory.validateAsync` by `asyncValidate`:
splice the slot out of `_asyncTestObjects`, then branch on validity and
on whether a waiter remains. -/
def validateDone (slot : Slot) (valid : Bool) (now : Nat) (s : PoolState) :
    PoolState × List Effect :=
  let s1 := { s with asyncTestObjects := s.asyncTestObjects.erase slot }
  if ¬ valid then
    let d := destroy slot.obj s1
    let r := asyncNext d.1
    (r.1, d.2 ++ r.2)
  else if s1.waitingClients.length < 1 then
    addResourceToAvailableObjects slot.obj now s1
  else
    let s2 := { s1 with inUseObjects := s1.inUseObjects ++ [slot.obj]
                        waitingClients := s1.waitingClients.tail }
    match s1.waitingClients with
    | w :: _ => (s2, [Effect.fulfilled w (.ok slot.obj)])
    | [] => (s2, [])

/-- The collection loop of `_removeIdle`: walk the available list while
`maxRemovable > toRemove.length`, collecting handles whose expiry has
passed. -/
def collectIdle (now : Nat) : List Slot → Int → List Nat
  | [], _ => []
  | c :: rest, budget =>
      if budget ≤ 0 then []
      else if now ≥ c.timeout then c.obj :: collectIdle now rest (budget - 1)
      else collectIdle now rest budget

/-- Embeds `toRemove.forEach(this.destroy, this)`. -/
def destroyEach : List Nat → PoolState → PoolState × List Effect
  | [], s => (s, [])
  | r :: rest, s =>
      let d := destroy r s
      let d2 := destroyEach rest d.1
      (d2.1, d.2 ++ d2.2)

/-- Embeds `_removeIdle`: returns immediately when `refreshIdle` is false (before
clearing `_removeIdleScheduled`); otherwise clears the flag, collects and
destroys expired slots bounded by `count - min`, and re-arms the timer if
available slots remain. -/
def removeIdle (now : Nat) (s : PoolState) : PoolState × List Effect :=
  if ¬ s.factory.refreshIdle then (s, [])
  else
    let s1 := { s with removeIdleScheduled := false }
    let maxRemovable := s1.count - s1.factory.min
    let toRemove := collectIdle now s1.availableObjects maxRemovable
    let d := destroyEach toRemove s1
    let s2 := if d.1.availableObjects.length > 0 then scheduleRemoveIdle d.1 else d.1
    (s2, (toRemove.map fun _ => Effect.logMsg .verbose) ++ d.2 ++ [Effect.logMsg .verbose])

/-- Embeds `acquire(callback)`: throws when draining, else push the waiter,
dispense, and return `_count < _factory.max`. -/
def acquire (w : Nat) (s : PoolState) :
    Except PoolError (PoolState × Bool × List Effect) :=
  if s.draining then .error .draining
  else
    let s1 := { s with waitingClients := s.waitingClients ++ [w] }
    let r := dispense s1
    .ok (r.1, decide (r.1.count < r.1.factory.max), r.2)

/-- Embeds `release(obj)`: error-log and return on double release or foreign
release; otherwise splice out of `_inUseObjects` and add to available. -/
def release (obj : Nat) (now : Nat) (s : PoolState) : PoolState × List Effect :=
  if s.availableObjects.any (fun o => o.obj == obj) then
    (s, [Effect.logMsg .error])
  else if ¬ s.inUseObjects.contains obj then
    (s, [Effect.logMsg .error])
  else
    let s1 := { s with inUseObjects := s.inUseObjects.erase obj }
    addResourceToAvailableObjects obj now s1

/-- One poll of the `check` closure inside `drain`. -/
inductive DrainCheck
  | reschedule
  | signal
deriving DecidableEq, Repr

def drainCheck (s : PoolState) : DrainCheck :=
  if s.waitingClients.length > 0 then .reschedule
  else if s.asyncTestObjects.length > 0 then .reschedule
  else if (s.availableObjects.length : Int) ≠ s.count then .reschedule
  else .signal

/-- Embeds `drain(callback)`: set the draining flag (then poll `drainCheck`). -/
def drain (s : PoolState) : PoolState × List Effect :=
  ({ s with draining := true }, [Effect.logMsg .info])

/-- Embeds `destroyAllNow`: snapshot and clear the available list, clear the
scheduled flag and cancel the timer, then destroy each snapshotted handle. -/
def destroyAllNow (s : PoolState) : PoolState × List Effect :=
  let willDie := s.availableObjects
  let s1 := { s with availableObjects := []
                     removeIdleScheduled := false
                     removeIdleTimerPending := false }
  let d := destroyEach (willDie.map Slot.obj) s1
  (d.1, [Effect.logMsg .info] ++ d.2)

/-- Externally triggered events: public API calls and the completions of
the four suspension points (create, validateAsync, nextTick, reap timer). -/
inductive Event
  | acquireEvt (w : Nat)
  | releaseEvt (obj : Nat) (now : Nat)
  | destroyEvt (obj : Nat)
  | createOk (obj : Nat) (now : Nat)
  | createErr (code : Nat)
  | validateDoneEvt (slot : Slot) (valid : Bool) (now : Nat)
  | tickDispense
  | removeIdleFire (now : Nat)
  | drainEvt
  | destroyAllEvt
deriving DecidableEq

def step (s : PoolState) (e : Event) : PoolState × List Effect :=
  match e with
  | .acquireEvt w =>
      match acquire w s with
      | .ok (s', _, effs) => (s', effs)
      | .error _ => (s, [])
  | .releaseEvt obj now => release obj now s
  | .destroyEvt obj => destroy obj s
  | .createOk obj now =>
      if s.pendingCreates > 0 then createDone (.ok obj) now s else (s, [])
  | .createErr code =>
      if s.pendingCreates > 0 then createDone (.err (.factoryError code)) 0 s
      else (s, [])
  | .validateDoneEvt slot valid now =>
      if slot ∈ s.asyncTestObjects then validateDone slot valid now s else (s, [])
  | .tickDispense =>
      if s.pendingTickDispense then dispense { s with pendingTickDispense := false }
      else (s, [])
  | .removeIdleFire now =>
      if s.removeIdleTimerPending then
        removeIdle now { s with removeIdleTimerPending := false }
      else (s, [])
  | .drainEvt => drain s
  | .destroyAllEvt => destroyAllNow s

def run (s : PoolState) : List Event → PoolState
  | [] => s
  | e :: rest => run (step s e).1 rest


/-! ### Acquire-deadline subsystem, modelled from the spec

`acquireTimeoutMillis` appears in the specification's configuration table
and error taxonomy and in the repository's integration tests, but the
code implementing it is not among the source files.  The waiter-queue
behaviour below is therefore modelled from the spec's words. -/

/-- Modelled from the spec: a waiter is "a record `(sink, enqueued_at,
optional_deadline)`"; the sink is identified by a numeric id, and the
deadline is present exactly when `acquireTimeoutMillis` was configured. -/
structure TWaiter where
  id : Nat
  deadline : Option Nat
deriving DecidableEq, Repr

/-- Modelled from the spec: the FIFO waiter queue together with the
fulfilment record of the one-shot sinks. -/
structure AcqModel where
  queue : List TWaiter
  fulfilled : List (Nat × CbResult)
deriving DecidableEq, Repr

/-- Modelled from the spec: events affecting the waiter queue — an
`acquire` enqueue, the deadline timer of a waiter firing, and the
dispenser serving the head waiter with a handle. -/
inductive AcqEvent
  | enqueue (w : TWaiter)
  | timeoutFire (wid : Nat) (now : Nat)
  | serve (h : Nat)
deriving DecidableEq, Repr

/-- Modelled from the spec: "The deadline, if reached, fulfils the waiter
with a `timeout` error and removes it from the queue"; the dispenser
fulfils the head waiter; waiters are fulfilled at most once and only
while enqueued. -/
def acqStep (m : AcqModel) (e : AcqEvent) : AcqModel :=
  match e with
  | .enqueue w => { m with queue := m.queue ++ [w] }
  | .timeoutFire wid now =>
      match m.queue.find? (fun w2 => w2.id == wid) with
      | some w =>
          match w.deadline with
          | some d =>
              if d ≤ now then
                { queue := m.queue.filter (fun w2 => w2.id != wid)
                  fulfilled := m.fulfilled ++ [(wid, .err .timeout)] }
              else m
          | none => m
      | none => m
  | .serve h =>
      match m.queue with
      | w :: rest => { queue := rest, fulfilled := m.fulfilled ++ [(w.id, .ok h)] }
      | [] => m

def acqRun (m : AcqModel) : List AcqEvent → AcqModel
  | [] => m
  | e :: rest => acqRun (acqStep m e) rest

/-- No event of `evs` enqueues a waiter with id `i`. -/
def NoEnq (i : Nat) (evs : List AcqEvent) : Prop :=
  ∀ w, AcqEvent.enqueue w ∈ evs → w.id ≠ i

/-! ### Concrete configurations and event traces used as evidence -/

/-- Async-validate factory with `min = 1`, `max = 2`. -/
def facAsyncMin1 : Factory :=
  { max := 2, min := 1, idleTimeoutMillis := 100, returnToHead := false,
    refreshIdle := true, mode := .async }

/-- Async-validate factory with `min = 0`, `max = 2`, `refreshIdle = false`. -/
def facNoRefresh : Factory :=
  { max := 2, min := 0, idleTimeoutMillis := 100, returnToHead := false,
    refreshIdle := false, mode := .async }

/-- Async-validate factory with `min = 0`, `max = 1`. -/
def facMax1 : Factory :=
  { max := 1, min := 0, idleTimeoutMillis := 100, returnToHead := false,
    refreshIdle := true, mode := .async }

/-- Sync-validate factory (validation always succeeds), tail insertion. -/
def facSyncTail : Factory :=
  { max := 2, min := 0, idleTimeoutMillis := 100, returnToHead := false,
    refreshIdle := true, mode := .sync (fun _ => true) }

/-- Sync-validate factory (validation always succeeds), head insertion. -/
def facSyncHead : Factory :=
  { max := 2, min := 0, idleTimeoutMillis := 100, returnToHead := true,
    refreshIdle := true, mode := .sync (fun _ => true) }

/-- Acquire; the create succeeds and serves the waiter; the user destroys
the held handle, so `_ensureMinimum` starts a replacement create which
completes with the waiter queue empty. -/
def c1Events : List Event :=
  [.acquireEvt 0, .createOk 10 5, .destroyEvt 10, .createOk 11 5]

/-- A served handle is released (arming the reap timer) and re-acquired
through async validation; then the pool is drained and the holder
destroys the handle, dropping `count` below `min` while the reap timer
is still pending. -/
def c5Events : List Event :=
  [.acquireEvt 0, .createOk 10 5, .releaseEvt 10 5, .acquireEvt 1,
   .validateDoneEvt { obj := 10, timeout := 105 } true 5, .drainEvt,
   .destroyEvt 10]

/-- With `refreshIdle = false`: serve, release (arming the reap timer)
and let the timer fire (the sweep returns early). -/
def c9aEvents : List Event :=
  [.acquireEvt 0, .createOk 10 5, .releaseEvt 10 5, .removeIdleFire 50]

/-- Continuation of `c9aEvents`: `destroyAllNow` resets the scheduled
flag, after which a release arms a fresh reap timer. -/
def c9bEvents : List Event :=
  c9aEvents ++ [.destroyAllEvt, .acquireEvt 1, .createOk 11 60, .releaseEvt 11 60]

/-- Concrete model state for the acquire-deadline model. -/
def acqM0 : AcqModel := { queue := [⟨7, some 5⟩, ⟨8, none⟩], fulfilled := [] }

/-- Concrete pool with one in-flight create and one waiter. -/
def sCreateErr : PoolState :=
  { initPool facAsyncMin1 with count := 1, pendingCreates := 1, waitingClients := [4] }

/-- Concrete pool holding one expired available slot, `count = 2 > min = 1`. -/
def sSweep : PoolState :=
  { initPool facAsyncMin1 with
    count := 2
    availableObjects := [{ obj := 5, timeout := 10 }]
    removeIdleScheduled := true }

/-- Concrete pool with handle 3 available (for a double release). -/
def sDoubleRel : PoolState :=
  { initPool facAsyncMin1 with
    count := 1
    availableObjects := [{ obj := 3, timeout := 10 }] }

/-- Concrete head-insertion pool with one available slot. -/
def sHead : PoolState :=
  { initPool facSyncHead with
    count := 1
    availableObjects := [{ obj := 9, timeout := 50 }] }

/-- Concrete sync-validate pool with one waiter and one available slot. -/
def sDisp : PoolState :=
  { initPool facSyncTail with
    count := 1
    waitingClients := [7]
    availableObjects := [{ obj := 3, timeout := 10 }] }

/-- Concrete draining pool. -/
def sDraining : PoolState := { initPool facAsyncMin1 with draining := true }

/-- The state reached by a non-draining `acquire` on an empty `max = 1`
pool: the waiter is enqueued and the dispense pass starts a create. -/
def sAfterAcq : PoolState :=
  (dispense { initPool facMax1 with waitingClients := [0] }).1

def effsAfterAcq : List Effect :=
  (dispense { initPool facMax1 with waitingClients := [0] }).2

/-- Selects the `factory.destroy` invocations among recorded effects. -/
def isDestroyEffect : Effect → Bool
  | .destroyedRes _ => true
  | _ => false


/-- Frame relation: the operation left the factory configuration and the
reap-scheduling fields untouched. -/
def ReapFrame (s t : PoolState) : Prop :=
  t.factory = s.factory ∧ t.removeIdleScheduled = s.removeIdleScheduled ∧
  t.removeIdleTimerPending = s.removeIdleTimerPending

/-- A pool with `refreshIdle = false` whose reap timer has fired: the
scheduled flag is stuck `true` while no timer is pending. -/
def ReapStuck (s : PoolState) : Prop :=
  s.factory.refreshIdle = false ∧ s.removeIdleScheduled = true ∧
  s.removeIdleTimerPending = false

/-! ### General lemmas about the embedded operations -/

theorem dispenseSyncLoop_nil (v : Nat → Bool) (s : PoolState)
    (hA : s.availableObjects = []) :
    dispenseSyncLoop v s =
      if s.count < s.factory.max then createResource s else (s, []) := by
  rw [dispenseSyncLoop.eq_def]
  split
  · rfl
  · simp_all

theorem dispenseSyncLoop_cons_valid (v : Nat → Bool) (s : PoolState)
    (c : Slot) (rest : List Slot) (w : Nat) (ws : List Nat)
    (hA : s.availableObjects = c :: rest)
    (hW : s.waitingClients = w :: ws)
    (hv : v c.obj = true) :
    dispenseSyncLoop v s =
      ({ s with availableObjects := rest
                inUseObjects := s.inUseObjects ++ [c.obj]
                waitingClients := ws },
       [Effect.logMsg .verbose, Effect.fulfilled w (.ok c.obj)]) := by
  rw [dispenseSyncLoop.eq_def]
  split
  · simp_all
  · rename_i c' rest' heq
    rw [hA] at heq
    obtain ⟨rfl, rfl⟩ : c' = c ∧ rest' = rest := by
      constructor <;> (injection heq; simp_all)
    rw [hv]
    simp only [if_true]
    rw [hW]
    simp [hA, hW]

theorem dispenseSyncLoop_cons_valid_nowaiter (v : Nat → Bool) (s : PoolState)
    (c : Slot) (rest : List Slot)
    (hA : s.availableObjects = c :: rest)
    (hW : s.waitingClients = [])
    (hv : v c.obj = true) :
    dispenseSyncLoop v s =
      ({ s with availableObjects := rest
                inUseObjects := s.inUseObjects ++ [c.obj]
                waitingClients := [] },
       [Effect.logMsg .verbose]) := by
  rw [dispenseSyncLoop.eq_def]
  split
  · simp_all
  · rename_i c' rest' heq
    rw [hA] at heq
    obtain ⟨rfl, rfl⟩ : c' = c ∧ rest' = rest := by
      constructor <;> (injection heq; simp_all)
    rw [hv]
    simp only [if_true]
    rw [hW]
    simp [hA, hW]

theorem dispenseSyncLoop_cons_invalid (v : Nat → Bool) (s : PoolState)
    (c : Slot) (rest : List Slot)
    (hA : s.availableObjects = c :: rest)
    (hv : v c.obj = false) :
    dispenseSyncLoop v s =
      ((dispenseSyncLoop v (destroy c.obj s).1).1,
       [Effect.logMsg .verbose] ++ (destroy c.obj s).2
         ++ (dispenseSyncLoop v (destroy c.obj s).1).2) := by
  rw [dispenseSyncLoop.eq_def]
  split
  · simp_all
  · rename_i c' rest' heq
    rw [hA] at heq
    obtain ⟨rfl, rfl⟩ : c' = c ∧ rest' = rest := by
      constructor <;> (injection heq; simp_all)
    rw [hv]
    simp

theorem reapFrame_trans {s t u : PoolState}
    (h1 : ReapFrame s t) (h2 : ReapFrame t u) : ReapFrame s u := by
  obtain ⟨a1, b1, c1⟩ := h1
  obtain ⟨a2, b2, c2⟩ := h2
  exact ⟨a2.trans a1, b2.trans b1, c2.trans c1⟩

theorem reapFrame_createResource (s : PoolState) :
    ReapFrame s (createResource s).1 := ⟨rfl, rfl, rfl⟩

theorem reapFrame_createN (n : Nat) (s : PoolState) :
    ReapFrame s (createN n s).1 := by
  induction n generalizing s with
  | zero => exact ⟨rfl, rfl, rfl⟩
  | succ n ih => exact reapFrame_trans (reapFrame_createResource s) (ih _)

theorem reapFrame_ensureMinimum (s : PoolState) :
    ReapFrame s (ensureMinimum s).1 := by
  unfold ensureMinimum
  split
  · exact reapFrame_createN _ _
  · exact ⟨rfl, rfl, rfl⟩

theorem reapFrame_destroy (r : Nat) (s : PoolState) :
    ReapFrame s (destroy r s).1 := by
  unfold destroy
  exact reapFrame_trans (t := { s with
    count := if s.count - 1 < 0 then 0 else s.count - 1
    availableObjects := s.availableObjects.filter (fun o => o.obj != r)
    inUseObjects := s.inUseObjects.filter (fun o => o != r) })
    ⟨rfl, rfl, rfl⟩ (reapFrame_ensureMinimum _)

theorem reapFrame_destroyEach (l : List Nat) (s : PoolState) :
    ReapFrame s (destroyEach l s).1 := by
  induction l generalizing s with
  | nil => exact ⟨rfl, rfl, rfl⟩
  | cons r rest ih => exact reapFrame_trans (reapFrame_destroy r s) (ih _)

theorem reapFrame_asyncNext (s : PoolState) :
    ReapFrame s (asyncNext s).1 := by
  unfold asyncNext
  split
  · split
    · exact reapFrame_createResource s
    · exact ⟨rfl, rfl, rfl⟩
  · exact ⟨rfl, rfl, rfl⟩

theorem reapFrame_dispenseSyncLoop (v : Nat → Bool) :
    ∀ (n : Nat) (s : PoolState), s.availableObjects.length ≤ n →
      ReapFrame s (dispenseSyncLoop v s).1 := by
  intro n
  induction n with
  | zero =>
      intro s hlen
      have hA : s.availableObjects = [] :=
        List.eq_nil_of_length_eq_zero (Nat.le_zero.mp hlen)
      rw [dispenseSyncLoop_nil v s hA]
      split
      · exact reapFrame_createResource s
      · exact ⟨rfl, rfl, rfl⟩
  | succ n ih =>
      intro s hlen
      cases hA : s.availableObjects with
      | nil =>
          rw [dispenseSyncLoop_nil v s hA]
          split
          · exact reapFrame_createResource s
          · exact ⟨rfl, rfl, rfl⟩
      | cons c rest =>
          by_cases hv : v c.obj
          · cases hW : s.waitingClients with
            | nil =>
                rw [dispenseSyncLoop_cons_valid_nowaiter v s c rest hA hW hv]
                exact ⟨rfl, rfl, rfl⟩
            | cons w ws =>
                rw [dispenseSyncLoop_cons_valid v s c rest w ws hA hW hv]
                exact ⟨rfl, rfl, rfl⟩
          · rw [dispenseSyncLoop_cons_invalid v s c rest hA
              (Bool.not_eq_true _ ▸ hv)]
            simp only
            have hlen2 : (destroy c.obj s).1.availableObjects.length ≤ n := by
              rw [destroy_availableObjects, hA,
                List.filter_cons_of_neg (by simp)]
              have h1 := List.length_filter_le (fun o => o.obj != c.obj) rest
              have h2 : rest.length ≤ n := by
                have h3 := hA ▸ hlen
                simpa using h3
              omega
            exact reapFrame_trans (reapFrame_destroy c.obj s)
              (ih _ hlen2)

theorem reapFrame_dispense (s : PoolState) : ReapFrame s (dispense s).1 := by
  unfold dispense
  split
  · exact ⟨rfl, rfl, rfl⟩
  · split
    · exact reapFrame_dispenseSyncLoop _ _ s (Nat.le_refl _)
    · exact reapFrame_asyncNext s

theorem reapFrame_insertAvailable (slot : Slot) (s : PoolState) :
    ReapFrame s (insertAvailable slot s) := by
  unfold insertAvailable
  split
  · exact ⟨rfl, rfl, rfl⟩
  · exact ⟨rfl, rfl, rfl⟩

theorem dispense_factory (s : PoolState) : (dispense s).1.factory = s.factory :=
  (reapFrame_dispense s).1


theorem reapStuck_of_frame {s t : PoolState}
    (hf : ReapFrame s t) (hs : ReapStuck s) : ReapStuck t := by
  obtain ⟨a, b, c⟩ := hf
  exact ⟨by rw [a]; exact hs.1, by rw [b]; exact hs.2.1, by rw [c]; exact hs.2.2⟩

theorem scheduleRemoveIdle_stuck {s : PoolState} (hs : ReapStuck s) :
    scheduleRemoveIdle s = s := by
  unfold scheduleRemoveIdle
  rw [hs.2.1]
  simp

theorem addResource_stuck (obj now : Nat) {s : PoolState} (hs : ReapStuck s) :
    ReapStuck (addResourceToAvailableObjects obj now s).1 := by
  unfold addResourceToAvailableObjects
  simp only
  have h1 : ReapStuck (dispense (insertAvailable
      { obj := obj, timeout := now + s.factory.idleTimeoutMillis } s)).1 :=
    reapStuck_of_frame
      (reapFrame_trans (reapFrame_insertAvailable _ s) (reapFrame_dispense _)) hs
  rw [scheduleRemoveIdle_stuck h1]
  exact h1

theorem createDone_stuck (res : CbResult) (now : Nat) {s : PoolState}
    (hs : ReapStuck s) : ReapStuck (createDone res now s).1 := by
  cases res with
  | err e =>
      cases hw : s.waitingClients with
      | nil =>
          simp only [createDone, hw, List.head?_nil, List.tail_nil]
          exact ⟨hs.1, hs.2.1, hs.2.2⟩
      | cons w ws =>
          simp only [createDone, hw, List.head?_cons, List.tail_cons]
          exact ⟨hs.1, hs.2.1, hs.2.2⟩
  | ok object =>
      cases hw : s.waitingClients with
      | nil =>
          simp only [createDone, hw, List.head?_nil, List.tail_nil]
          exact addResource_stuck object now ⟨hs.1, hs.2.1, hs.2.2⟩
      | cons w ws =>
          simp only [createDone, hw, List.head?_cons, List.tail_cons]
          exact ⟨hs.1, hs.2.1, hs.2.2⟩

theorem validateDone_stuck (slot : Slot) (valid : Bool) (now : Nat)
    {s : PoolState} (hs : ReapStuck s) :
    ReapStuck (validateDone slot valid now s).1 := by
  by_cases hv : ¬ (valid = true)
  · simp only [validateDone]
    rw [if_pos hv]
    exact reapStuck_of_frame
      (reapFrame_trans
        (reapFrame_destroy slot.obj
          { s with asyncTestObjects := s.asyncTestObjects.erase slot })
        (reapFrame_asyncNext _))
      ⟨hs.1, hs.2.1, hs.2.2⟩
  · cases hw : s.waitingClients with
    | nil =>
        simp only [validateDone, hw]
        rw [if_neg hv]
        rw [if_pos (by simp)]
        exact addResource_stuck slot.obj now ⟨hs.1, hs.2.1, hs.2.2⟩
    | cons w ws =>
        simp only [validateDone, hw]
        rw [if_neg hv]
        rw [if_neg (by simp [Nat.lt_one_iff])]
        exact ⟨hs.1, hs.2.1, hs.2.2⟩

theorem release_stuck (obj now : Nat) {s : PoolState} (hs : ReapStuck s) :
    ReapStuck (release obj now s).1 := by
  unfold release
  split
  · exact hs
  · split
    · exact hs
    · exact addResource_stuck obj now ⟨hs.1, hs.2.1, hs.2.2⟩

theorem removeIdle_noRefresh (now : Nat) {s : PoolState}
    (h : s.factory.refreshIdle = false) : removeIdle now s = (s, []) := by
  unfold removeIdle
  simp [h]

theorem step_stuck (s : PoolState) (e : Event) (hs : ReapStuck s)
    (hne : e ≠ .destroyAllEvt) : ReapStuck (step s e).1 := by
  cases e with
  | acquireEvt w =>
      simp only [step]
      by_cases hd : s.draining
      · simp only [acquire, hd, if_true]
        exact hs
      · simp only [acquire, hd, if_false]
        exact reapStuck_of_frame (reapFrame_dispense _) ⟨hs.1, hs.2.1, hs.2.2⟩
  | releaseEvt obj now => exact release_stuck obj now hs
  | destroyEvt obj => exact reapStuck_of_frame (reapFrame_destroy obj s) hs
  | createOk obj now =>
      simp only [step]
      by_cases hg : s.pendingCreates > 0
      · rw [if_pos hg]
        exact createDone_stuck _ now hs
      · rw [if_neg hg]
        exact hs
  | createErr code =>
      simp only [step]
      by_cases hg : s.pendingCreates > 0
      · rw [if_pos hg]
        exact createDone_stuck _ 0 hs
      · rw [if_neg hg]
        exact hs
  | validateDoneEvt slot valid now =>
      simp only [step]
      by_cases hg : slot ∈ s.asyncTestObjects
      · rw [if_pos hg]
        exact validateDone_stuck slot valid now hs
      · rw [if_neg hg]
        exact hs
  | tickDispense =>
      simp only [step]
      by_cases hg : s.pendingTickDispense = true
      · rw [if_pos hg]
        exact reapStuck_of_frame (reapFrame_dispense _) ⟨hs.1, hs.2.1, hs.2.2⟩
      · rw [if_neg hg]
        exact hs
  | removeIdleFire now =>
      simp only [step]
      rw [if_neg (by rw [hs.2.2]; simp)]
      exact hs
  | drainEvt => exact ⟨hs.1, hs.2.1, hs.2.2⟩
  | destroyAllEvt => exact absurd rfl hne

theorem run_stuck : ∀ (evs : List Event) (s : PoolState), ReapStuck s →
    Event.destroyAllEvt ∉ evs → ReapStuck (run s evs) := by
  intro evs
  induction evs with
  | nil => intro s hs _; exact hs
  | cons e rest ih =>
      intro s hs hne
      have h1 : e ≠ .destroyAllEvt := fun h => hne (h ▸ List.mem_cons_self _ _)
      have h2 : Event.destroyAllEvt ∉ rest := fun h => hne (List.mem_cons_of_mem _ h)
      exact ih _ (step_stuck s e hs h1) h2


theorem acqStep_inv (i : Nat) (m : AcqModel) (e : AcqEvent)
    (hq : ∀ w2 ∈ m.queue, w2.id ≠ i)
    (he : ∀ w, e = AcqEvent.enqueue w → w.id ≠ i) :
    (∀ w2 ∈ (acqStep m e).queue, w2.id ≠ i) ∧
    (∀ h2, (i, CbResult.ok h2) ∈ (acqStep m e).fulfilled ↔
           (i, CbResult.ok h2) ∈ m.fulfilled) := by
  cases e with
  | enqueue w =>
      refine ⟨?_, fun h2 => Iff.rfl⟩
      intro w2 hw2
      simp only [acqStep, List.mem_append, List.mem_singleton] at hw2
      rcases hw2 with h | h
      · exact hq _ h
      · subst h; exact he _ rfl
  | timeoutFire wid now =>
      simp only [acqStep]
      repeat' split
      all_goals try exact ⟨hq, fun h2 => Iff.rfl⟩
      refine ⟨?_, ?_⟩
      · intro w2 hw2
        exact hq _ (List.mem_of_mem_filter hw2)
      · intro h2
        simp
  | serve h =>
      simp only [acqStep]
      split
      · rename_i w rest hqm
        refine ⟨?_, ?_⟩
        · intro w2 hw2
          exact hq _ (by rw [hqm]; exact List.mem_cons_of_mem _ hw2)
        · intro h2
          have hw : w.id ≠ i := hq w (by rw [hqm]; exact List.mem_cons_self _ _)
          simp only [List.mem_append, List.mem_singleton]
          constructor
          · rintro (hm | hm)
            · exact hm
            · simp only [Prod.mk.injEq] at hm
              exact absurd hm.1.symm hw
          · exact fun hm => Or.inl hm
      · exact ⟨hq, fun h2 => Iff.rfl⟩

theorem acqRun_ok_mem (i : Nat) :
    ∀ (evs : List AcqEvent) (m : AcqModel),
    (∀ w2 ∈ m.queue, w2.id ≠ i) → NoEnq i evs →
    ∀ h2, ((i, CbResult.ok h2) ∈ (acqRun m evs).fulfilled ↔
           (i, CbResult.ok h2) ∈ m.fulfilled) := by
  intro evs
  induction evs with
  | nil => intro m hq _ h2; exact Iff.rfl
  | cons e rest ih =>
      intro m hq hne h2
      have he : ∀ w, e = AcqEvent.enqueue w → w.id ≠ i := by
        intro w hw
        exact hne w (hw ▸ List.mem_cons_self _ _)
      have hstep := acqStep_inv i m e hq he
      have hrest : NoEnq i rest := by
        intro w hw
        exact hne w (List.mem_cons_of_mem _ hw)
      calc (i, CbResult.ok h2) ∈ (acqRun (acqStep m e) rest).fulfilled
          ↔ (i, CbResult.ok h2) ∈ (acqStep m e).fulfilled :=
            ih (acqStep m e) hstep.1 hrest h2
        _ ↔ (i, CbResult.ok h2) ∈ m.fulfilled := hstep.2 h2

/-! ### Claim theorems -/

/-- C1: the claim states that the membership sets are pairwise disjoint
at every external observation point and that, in particular, a factory
create completing successfully with no waiter present adds the new
handle to the available set only, not to the in-use set.  The code
contradicts this: `_createResource`'s callback pushes the handle into
`_inUseObjects` unconditionally before checking for a waiter, and with
no waiter also adds it to `_availableObjects` without removing it from
the in-use list.  After the concrete trace `c1Events` (acquire; create
completes and serves the waiter; the holder destroys the handle, so
`_ensureMinimum` starts a replacement create; that create completes with
an empty waiter queue) handle 11 is a member of both sets at a point
where no callback is running. -/
theorem createSuccessNoWaiterDoubleMembership :
    11 ∈ (run (initPool facAsyncMin1) c1Events).inUseObjects ∧
    11 ∈ (run (initPool facAsyncMin1) c1Events).availableObjects.map Slot.obj ∧
    (run (initPool facAsyncMin1) c1Events).pendingCreates = 0 := by decide

/-- C2: in the spec-modelled acquire-deadline subsystem, firing the
deadline of a still-enqueued waiter whose deadline has elapsed removes
that waiter from the queue and appends exactly one timeout-error
fulfilment for it, and in any continuation that does not re-enqueue the
same waiter id the waiter never receives a handle. -/
theorem acquireTimeoutFulfilsOnceAndRemoves
    (m : AcqModel) (i d now : Nat) (w : TWaiter)
    (hfind : m.queue.find? (fun w2 => w2.id == i) = some w)
    (hdl : w.deadline = some d) (hnow : d ≤ now) :
    (∀ w2 ∈ (acqStep m (.timeoutFire i now)).queue, w2.id ≠ i) ∧
    (acqStep m (.timeoutFire i now)).fulfilled
        = m.fulfilled ++ [(i, CbResult.err .timeout)] ∧
    (∀ evs, NoEnq i evs → ∀ h2,
      ((i, CbResult.ok h2) ∈ (acqRun (acqStep m (.timeoutFire i now)) evs).fulfilled ↔
       (i, CbResult.ok h2) ∈ m.fulfilled)) := by
  have hstep : acqStep m (.timeoutFire i now)
      = { queue := m.queue.filter (fun w2 => w2.id != i)
          fulfilled := m.fulfilled ++ [(i, CbResult.err .timeout)] } := by
    simp only [acqStep, hfind, hdl, if_pos hnow]
  have hqinv : ∀ w2 ∈ (acqStep m (.timeoutFire i now)).queue, w2.id ≠ i := by
    rw [hstep]
    intro w2 hw2
    simp only [List.mem_filter, bne_iff_ne] at hw2
    exact hw2.2
  refine ⟨hqinv, by rw [hstep], ?_⟩
  intro evs hne h2
  have hmem := acqRun_ok_mem i evs _ hqinv hne h2
  rw [hmem, hstep]
  simp

theorem acquireTimeoutFulfilsOnceAndRemovesWitness :
    (acqStep acqM0 (.timeoutFire 7 9)).fulfilled = [(7, CbResult.err .timeout)] ∧
    ¬ ((7, CbResult.ok 3) ∈
        (acqRun (acqStep acqM0 (.timeoutFire 7 9)) [.serve 3]).fulfilled) := by
  have h := acquireTimeoutFulfilsOnceAndRemoves acqM0 7 5 9 ⟨7, some 5⟩
    (by decide) rfl (by decide)
  refine ⟨h.2.1, ?_⟩
  intro hmem
  have hne : NoEnq 7 [.serve 3] := by
    intro w hw
    simp at hw
  have hm0 := (h.2.2 [.serve 3] hne 3).mp hmem
  simp [acqM0] at hm0

/-- C4: the drain poll signals completion exactly when the waiter queue
is empty, the under-validation set is empty and the number of available
resources equals `count`; while any condition fails it reschedules. -/
theorem drainSignalsIffQuiescent (s : PoolState) :
    drainCheck s = .signal ↔
      (s.waitingClients = [] ∧ s.asyncTestObjects = [] ∧
       (s.availableObjects.length : Int) = s.count) := by
  unfold drainCheck
  split_ifs with h1 h2 h3
  · refine iff_of_false (by simp) ?_
    rintro ⟨hw, -, -⟩
    rw [hw] at h1
    simp at h1
  · refine iff_of_false (by simp) ?_
    rintro ⟨-, ha, -⟩
    rw [ha] at h2
    simp at h2
  · refine iff_of_false (by simp) ?_
    rintro ⟨-, -, hc⟩
    exact h3 hc
  · refine iff_of_true rfl ⟨?_, ?_, not_not.mp h3⟩
    · exact List.eq_nil_of_length_eq_zero (by omega)
    · exact List.eq_nil_of_length_eq_zero (by omega)

/-- C6: releasing a handle that is already in the available set, or one
that is not in the in-use set, leaves the whole pool state unchanged and
produces only an error-level log message (the embedded `release` is a
total function, so no exception is raised); in particular a second
release of the same handle is a no-op. -/
theorem releaseInvalidIsNoop (s : PoolState) (obj now : Nat)
    (h : s.availableObjects.any (fun o => o.obj == obj) = true ∨
         s.inUseObjects.contains obj = false) :
    release obj now s = (s, [Effect.logMsg .error]) := by
  unfold release
  rcases h with h | h
  · rw [if_pos h]
  · by_cases h2 : s.availableObjects.any (fun o => o.obj == obj) = true
    · rw [if_pos h2]
    · rw [if_neg h2, if_pos (by rw [h]; exact Bool.false_ne_true)]

theorem releaseInvalidIsNoopWitness :
    release 3 0 sDoubleRel = (sDoubleRel, [Effect.logMsg .error]) :=
  releaseInvalidIsNoop sDoubleRel 3 0 (Or.inl (by decide))

/-- C8: while the pool is draining, `acquire` raises the draining error
synchronously and the pool state is unchanged — no waiter is enqueued. -/
theorem acquireWhileDrainingThrows (s : PoolState) (w : Nat)
    (h : s.draining = true) :
    acquire w s = .error .draining ∧ step s (.acquireEvt w) = (s, []) := by
  constructor
  · simp [acquire, h]
  · simp [step, acquire, h]

theorem acquireWhileDrainingThrowsWitness :
    acquire 0 sDraining = .error .draining ∧
    step sDraining (.acquireEvt 0) = (sDraining, []) :=
  acquireWhileDrainingThrows sDraining 0 rfl


/-- C3: when a factory create completes with an error, `count` is
decremented by one (clamped at zero), the head waiter — shifted before
the error check — is delivered the error when the queue was non-empty, a
dispense is scheduled for the next scheduling turn, and no membership
set is touched: the failed handle never enters any set. -/
theorem createErrorRepairsCountAndDelivers (s : PoolState) (e : PoolError)
    (now : Nat) :
    (createDone (.err e) now s).1.count = max (s.count - 1) 0 ∧
    (createDone (.err e) now s).1.availableObjects = s.availableObjects ∧
    (createDone (.err e) now s).1.inUseObjects = s.inUseObjects ∧
    (createDone (.err e) now s).1.asyncTestObjects = s.asyncTestObjects ∧
    (createDone (.err e) now s).1.waitingClients = s.waitingClients.tail ∧
    (createDone (.err e) now s).1.pendingTickDispense = true ∧
    (∀ w t, s.waitingClients = w :: t →
       Effect.fulfilled w (.err e) ∈ (createDone (.err e) now s).2) := by
  have hcount : (if s.count - 1 < 0 then (0 : Int) else s.count - 1)
      = max (s.count - 1) 0 := by
    rcases le_or_lt 0 (s.count - 1) with hc | hc
    · rw [if_neg (by omega)]
      exact (max_eq_left hc).symm
    · rw [if_pos hc]
      exact (max_eq_right (le_of_lt hc)).symm
  cases hw : s.waitingClients with
  | nil =>
      simp only [createDone, hw, List.head?_nil, List.tail_nil]
      refine ⟨hcount, trivial, trivial, trivial, trivial, trivial, ?_⟩
      intro w t ht
      exact absurd ht (by simp)
  | cons w ws =>
      simp only [createDone, hw, List.head?_cons, List.tail_cons]
      refine ⟨hcount, trivial, trivial, trivial, trivial, trivial, ?_⟩
      intro w2 t ht
      cases ht
      simp

theorem createErrorRepairsCountAndDeliversWitness :
    (createDone (.err (.factoryError 1)) 0 sCreateErr).1.count = 0 ∧
    Effect.fulfilled 4 (.err (.factoryError 1))
      ∈ (createDone (.err (.factoryError 1)) 0 sCreateErr).2 ∧
    (createDone (.err (.factoryError 1)) 0 sCreateErr).1.pendingTickDispense
      = true := by
  have h := createErrorRepairsCountAndDelivers sCreateErr (.factoryError 1) 0
  refine ⟨?_, h.2.2.2.2.2.2 4 [] rfl, h.2.2.2.2.2.1⟩
  rw [h.1]
  decide

/-- C7: a successful release inserts the released slot at the head of the
available list when `returnToHead` is set and appends it at the tail
otherwise, and the dispenser always takes its candidate slot from the
head of the available list (in sync-validate mode the head is validated,
moved to in-use and handed to the head waiter; in async-validate mode the
head is moved into the under-validation set). -/
theorem releasePositionAndHeadConsumption :
    (∀ (s : PoolState) (slot : Slot), s.factory.returnToHead = true →
       (insertAvailable slot s).availableObjects = slot :: s.availableObjects) ∧
    (∀ (s : PoolState) (slot : Slot), s.factory.returnToHead = false →
       (insertAvailable slot s).availableObjects = s.availableObjects ++ [slot]) ∧
    (∀ (s : PoolState) (obj now : Nat),
       s.availableObjects.any (fun o => o.obj == obj) = false →
       s.inUseObjects.contains obj = true →
       release obj now s =
         addResourceToAvailableObjects obj now
           { s with inUseObjects := s.inUseObjects.erase obj }) ∧
    (∀ (v : Nat → Bool) (s : PoolState) (c : Slot) (rest : List Slot)
       (w : Nat) (ws : List Nat),
       s.factory.mode = .sync v → s.availableObjects = c :: rest →
       s.waitingClients = w :: ws → v c.obj = true →
       (dispense s).1.availableObjects = rest ∧
       (dispense s).1.inUseObjects = s.inUseObjects ++ [c.obj] ∧
       Effect.fulfilled w (.ok c.obj) ∈ (dispense s).2) ∧
    (∀ (s : PoolState) (c : Slot) (rest : List Slot),
       s.factory.mode = .async → s.availableObjects = c :: rest →
       s.waitingClients ≠ [] →
       (dispense s).1.availableObjects = rest ∧
       (dispense s).1.asyncTestObjects = s.asyncTestObjects ++ [c]) := by
  refine ⟨?_, ?_, ?_, ?_, ?_⟩
  · intro s slot h
    unfold insertAvailable
    rw [if_pos h]
  · intro s slot h
    unfold insertAvailable
    rw [if_neg (by rw [h]; exact Bool.false_ne_true)]
  · intro s obj now h1 h2
    unfold release
    rw [if_neg (by rw [h1]; exact Bool.false_ne_true),
      if_neg (by rw [h2]; simp)]
  · intro v s c rest w ws hm hA hW hv
    have hlen : ¬ (s.waitingClients.length < 1) := by
      rw [hW]
      simp
    have hdsl := dispenseSyncLoop_cons_valid v s c rest w ws hA hW hv
    unfold dispense
    rw [if_neg hlen, hm]
    refine ⟨by simp [hdsl], by simp [hdsl], by simp [hdsl]⟩
  · intro s c rest hm hA hWne
    have hlen : ¬ (s.waitingClients.length < 1) := by
      intro hlt
      exact hWne (List.eq_nil_of_length_eq_zero (Nat.lt_one_iff.mp hlt))
    unfold dispense
    rw [if_neg hlen, hm]
    simp [asyncNext, hA]

theorem releasePositionAndHeadConsumptionWitness :
    (insertAvailable { obj := 3, timeout := 7 } sHead).availableObjects
      = { obj := 3, timeout := 7 } :: sHead.availableObjects ∧
    (dispense sDisp).1.availableObjects = [] ∧
    (dispense sDisp).1.inUseObjects = sDisp.inUseObjects ++ [3] ∧
    Effect.fulfilled 7 (.ok 3) ∈ (dispense sDisp).2 := by
  have h1 := releasePositionAndHeadConsumption.1 sHead
    { obj := 3, timeout := 7 } rfl
  have h4 := releasePositionAndHeadConsumption.2.2.2.1 (fun _ => true) sDisp
    { obj := 3, timeout := 10 } [] 7 [] rfl rfl rfl rfl
  exact ⟨h1, h4.1, h4.2.1, h4.2.2⟩

/-- C10: a non-throwing `acquire` returns the boolean
`count < factory.max` read after the waiter was enqueued and the
synchronous dispense pass ran; equivalently the returned boolean is true
iff the pool is not fully utilized at that moment, independently of the
waiter's eventual fulfilment. -/
theorem acquireReturnsUtilizationAfterDispense
    (s : PoolState) (w : Nat) (s' : PoolState) (b : Bool) (effs : List Effect)
    (h : acquire w s = .ok (s', b, effs)) :
    (b = true ↔ s'.count < s.factory.max) ∧
    s' = (dispense { s with waitingClients := s.waitingClients ++ [w] }).1 ∧
    effs = (dispense { s with waitingClients := s.waitingClients ++ [w] }).2 := by
  unfold acquire at h
  by_cases hd : s.draining
  · rw [if_pos hd] at h
    exact absurd h (by simp)
  · rw [if_neg hd] at h
    simp only [Except.ok.injEq, Prod.mk.injEq] at h
    obtain ⟨hs', hb, he⟩ := h
    subst hs'
    subst he
    subst hb
    refine ⟨?_, rfl, rfl⟩
    rw [decide_eq_true_iff]
    rw [dispense_factory { s with waitingClients := s.waitingClients ++ [w] }]

theorem acquireReturnsUtilizationAfterDispenseWitness :
    (false = true ↔ sAfterAcq.count < (initPool facMax1).factory.max) ∧
    sAfterAcq = (dispense { initPool facMax1 with waitingClients := [0] }).1 ∧
    effsAfterAcq = (dispense { initPool facMax1 with waitingClients := [0] }).2 :=
  acquireReturnsUtilizationAfterDispense (initPool facMax1) 0 sAfterAcq false
    effsAfterAcq rfl


/-- C9 (amended): with `refreshIdle = false` the sweep body returns
before clearing `_removeIdleScheduled` and changes nothing; hence once
the flag is set and the timer has fired, every subsequent event that is
not a `destroyAllNow` call keeps the flag set and never arms a reap
timer again.  (`destroyAllNow` resets the flag, so after it the reaper
can be armed again — see the counterexample.) -/
theorem refreshIdleFalseReapNeverRearmed :
    (∀ (s : PoolState) (now : Nat), s.factory.refreshIdle = false →
       removeIdle now s = (s, [])) ∧
    (∀ (s : PoolState) (evs : List Event), s.factory.refreshIdle = false →
       s.removeIdleScheduled = true → s.removeIdleTimerPending = false →
       Event.destroyAllEvt ∉ evs →
       (run s evs).removeIdleScheduled = true ∧
       (run s evs).removeIdleTimerPending = false) := by
  refine ⟨?_, ?_⟩
  · intro s now h
    exact removeIdle_noRefresh now h
  · intro s evs h1 h2 h3 h4
    have h := run_stuck evs s ⟨h1, h2, h3⟩ h4
    exact ⟨h.2.1, h.2.2⟩

theorem refreshIdleFalseReapNeverRearmedWitness :
    removeIdle 50 (run (initPool facNoRefresh) c9aEvents)
      = (run (initPool facNoRefresh) c9aEvents, []) ∧
    PoolState.removeIdleScheduled
      (run (run (initPool facNoRefresh) c9aEvents) [.acquireEvt 1]) = true ∧
    PoolState.removeIdleTimerPending
      (run (run (initPool facNoRefresh) c9aEvents) [.acquireEvt 1]) = false := by
  refine ⟨refreshIdleFalseReapNeverRearmed.1 _ 50 (by decide), ?_, ?_⟩
  · exact (refreshIdleFalseReapNeverRearmed.2 _ [.acquireEvt 1] (by decide)
      (by decide) (by decide) (by decide)).1
  · exact (refreshIdleFalseReapNeverRearmed.2 _ [.acquireEvt 1] (by decide)
      (by decide) (by decide) (by decide)).2

/-- C9 counterexample: the claim asserts that after the first timer fire
with `refreshIdle = false` no reap timer is ever armed again for the
lifetime of the pool.  In the concrete run below the timer is armed and
fires (leaving the scheduled flag set and no timer pending), but the
continuation calls `destroyAllNow` — which resets the scheduled flag —
and a subsequent release arms a fresh reap timer. -/
theorem reapTimerRearmedAfterDestroyAllCounterexample :
    PoolState.removeIdleTimerPending (run (initPool facNoRefresh)
        [.acquireEvt 0, .createOk 10 5, .releaseEvt 10 5]) = true ∧
    (run (initPool facNoRefresh) c9aEvents).removeIdleTimerPending = false ∧
    (run (initPool facNoRefresh) c9aEvents).removeIdleScheduled = true ∧
    (run (initPool facNoRefresh) c9bEvents).removeIdleTimerPending = true := by
  decide

theorem collectIdle_length (now : Nat) :
    ∀ (l : List Slot) (b : Int), ((collectIdle now l b).length : Int) ≤ max b 0 := by
  intro l
  induction l with
  | nil =>
      intro b
      simp only [collectIdle, List.length_nil, Int.natCast_zero]
      exact le_max_right b 0
  | cons c rest ih =>
      intro b
      simp only [collectIdle]
      by_cases hb : b ≤ 0
      · rw [if_pos hb]
        simp only [List.length_nil, Int.natCast_zero]
        exact le_max_right b 0
      · rw [if_neg hb]
        by_cases ht : now ≥ c.timeout
        · rw [if_pos ht]
          simp only [List.length_cons]
          have h1 := ih (b - 1)
          have hm : max (b - 1) 0 = b - 1 := max_eq_left (by omega)
          rw [hm] at h1
          have hm2 : max b 0 = b := max_eq_left (by omega)
          rw [hm2]
          push_cast
          omega
        · rw [if_neg ht]
          exact ih b

theorem collectIdle_mem (now : Nat) :
    ∀ (l : List Slot) (b : Int) (o : Nat), o ∈ collectIdle now l b →
      ∃ c ∈ l, c.obj = o ∧ c.timeout ≤ now := by
  intro l
  induction l with
  | nil =>
      intro b o h
      simp [collectIdle] at h
  | cons c rest ih =>
      intro b o h
      simp only [collectIdle] at h
      by_cases hb : b ≤ 0
      · rw [if_pos hb] at h
        simp at h
      · rw [if_neg hb] at h
        by_cases ht : now ≥ c.timeout
        · rw [if_pos ht] at h
          rcases List.mem_cons.mp h with h0 | h0
          · exact ⟨c, List.mem_cons_self _ _, h0.symm, ht⟩
          · obtain ⟨c2, hc2, ho, hto⟩ := ih _ _ h0
            exact ⟨c2, List.mem_cons_of_mem _ hc2, ho, hto⟩
        · rw [if_neg ht] at h
          obtain ⟨c2, hc2, ho, hto⟩ := ih _ _ h
          exact ⟨c2, List.mem_cons_of_mem _ hc2, ho, hto⟩

theorem createN_noDestroy (n : Nat) (s : PoolState) :
    (createN n s).2.filter isDestroyEffect = [] := by
  induction n generalizing s with
  | zero => rfl
  | succ n ih => simp [createN, createResource, isDestroyEffect, ih]

theorem ensureMinimum_noDestroy (s : PoolState) :
    (ensureMinimum s).2.filter isDestroyEffect = [] := by
  unfold ensureMinimum
  split
  · exact createN_noDestroy _ _
  · rfl

theorem destroy_destroyedList (r : Nat) (s : PoolState) :
    (destroy r s).2.filter isDestroyEffect = [Effect.destroyedRes r] := by
  unfold destroy
  simp only [List.filter_append, ensureMinimum_noDestroy, List.append_nil]
  rfl

theorem destroyEach_destroyedList (l : List Nat) :
    ∀ s : PoolState,
      (destroyEach l s).2.filter isDestroyEffect = l.map Effect.destroyedRes := by
  induction l with
  | nil => intro s; rfl
  | cons r rest ih =>
      intro s
      simp only [destroyEach]
      rw [List.filter_append, destroy_destroyedList, ih]
      rfl

theorem scheduleRemoveIdle_count (s : PoolState) :
    (scheduleRemoveIdle s).count = s.count := by
  unfold scheduleRemoveIdle
  split
  · rfl
  · rfl

theorem destroy_count_ge (r : Nat) {s : PoolState}
    (hmin : 0 ≤ s.factory.min) (h : s.factory.min + 1 ≤ s.count) :
    (destroy r s).1.count = s.count - 1 ∧ (destroy r s).1.factory = s.factory := by
  simp only [destroy]
  rw [if_neg (show ¬ (s.count - 1 < 0) by omega)]
  unfold ensureMinimum
  rw [if_neg (by
      rintro ⟨-, hlt⟩
      simp only at hlt
      omega)]
  exact ⟨rfl, rfl⟩

theorem destroyEach_count :
    ∀ (l : List Nat) (s : PoolState), 0 ≤ s.factory.min →
      s.factory.min + l.length ≤ s.count →
      (destroyEach l s).1.count = s.count - l.length ∧
      (destroyEach l s).1.factory = s.factory := by
  intro l
  induction l with
  | nil =>
      intro s _ _
      exact ⟨by simp [destroyEach], rfl⟩
  | cons r rest ih =>
      intro s hmin hlen
      simp only [List.length_cons] at hlen
      push_cast at hlen
      have h1 := destroy_count_ge r hmin (by omega)
      have h2 := ih (destroy r s).1 (by rw [h1.2]; exact hmin)
        (by rw [h1.2, h1.1]; push_cast; omega)
      simp only [destroyEach]
      refine ⟨?_, by rw [h2.2, h1.2]⟩
      rw [h2.1, h1.1]
      simp only [List.length_cons]
      omega


theorem removeIdle_refresh_eq (now : Nat) (s : PoolState)
    (hr : s.factory.refreshIdle = true) :
    removeIdle now s =
      ((if (destroyEach (collectIdle now s.availableObjects
              (s.count - s.factory.min))
              { s with removeIdleScheduled := false }).1.availableObjects.length > 0
        then scheduleRemoveIdle (destroyEach (collectIdle now s.availableObjects
              (s.count - s.factory.min))
              { s with removeIdleScheduled := false }).1
        else (destroyEach (collectIdle now s.availableObjects
              (s.count - s.factory.min))
              { s with removeIdleScheduled := false }).1),
       ((collectIdle now s.availableObjects (s.count - s.factory.min)).map
           fun _ => Effect.logMsg .verbose)
         ++ (destroyEach (collectIdle now s.availableObjects
              (s.count - s.factory.min))
              { s with removeIdleScheduled := false }).2
         ++ [Effect.logMsg .verbose]) := by
  unfold removeIdle
  rw [if_neg (not_not_intro hr)]

/-- C5 (amended): every reaper sweep destroys at most
`max(count − min, 0)` resources (both counters read at the start of the
sweep) and collects only available slots whose expiry has passed — both
facts unconditionally; and provided `count ≥ min` (with `min ≥ 0`, as
the constructor validates) held when the sweep began, `count ≥ min`
still holds after the sweep.  The unconditional consequence claimed —
`count ≥ min` after every sweep — fails when the sweep starts with
`count < min` (reachable while draining; see the counterexample). -/
theorem reaperSweepBoundedByFloor (s : PoolState) (now : Nat) :
    (((removeIdle now s).2.filter isDestroyEffect).length : Int)
        ≤ max (s.count - s.factory.min) 0 ∧
    (∀ o, Effect.destroyedRes o ∈ (removeIdle now s).2 →
       ∃ c ∈ s.availableObjects, c.obj = o ∧ c.timeout ≤ now) ∧
    (0 ≤ s.factory.min → s.factory.min ≤ s.count →
       s.factory.min ≤ (removeIdle now s).1.count) := by
  by_cases hr : s.factory.refreshIdle = true
  case neg =>
    rw [removeIdle_noRefresh now (by simpa using hr)]
    refine ⟨?_, ?_, ?_⟩
    · simp only [List.filter_nil, List.length_nil, Int.natCast_zero]
      exact le_max_right _ _
    · intro o ho
      simp at ho
    · intro _ hcnt
      exact hcnt
  case pos =>
    rw [removeIdle_refresh_eq now s hr]
    have hmap : ((collectIdle now s.availableObjects
        (s.count - s.factory.min)).map
          fun _ => Effect.logMsg LogLevel.verbose).filter isDestroyEffect
        = [] := by
      rw [List.filter_eq_nil_iff]
      intro a ha
      simp only [List.mem_map] at ha
      obtain ⟨x, -, rfl⟩ := ha
      simp [isDestroyEffect]
    refine ⟨?_, ?_, ?_⟩
    · have htail : ([Effect.logMsg LogLevel.verbose].filter isDestroyEffect)
          = [] := rfl
      simp only [List.filter_append, hmap, destroyEach_destroyedList, htail,
        List.nil_append, List.append_nil, List.length_map]
      exact collectIdle_length now s.availableObjects
        (s.count - s.factory.min)
    · intro o ho
      simp only [List.mem_append, List.mem_map, List.mem_singleton] at ho
      rcases ho with (⟨x, -, hx⟩ | ho) | ho
      · exact absurd hx (by simp)
      · have hmem : Effect.destroyedRes o ∈
            ((destroyEach (collectIdle now s.availableObjects
              (s.count - s.factory.min))
              { s with removeIdleScheduled := false }).2.filter isDestroyEffect) := by
          rw [List.mem_filter]
          exact ⟨ho, rfl⟩
        rw [destroyEach_destroyedList] at hmem
        simp only [List.mem_map] at hmem
        obtain ⟨o2, ho2, heq⟩ := hmem
        cases heq
        exact collectIdle_mem now s.availableObjects _ o ho2
      · exact absurd ho (by simp)
    · intro hmin hcnt
      have hlenR : ((collectIdle now s.availableObjects
          (s.count - s.factory.min)).length : Int) ≤ s.count - s.factory.min := by
        have h0 := collectIdle_length now s.availableObjects
          (s.count - s.factory.min)
        rwa [max_eq_left (by omega)] at h0
      have hde := destroyEach_count
        (collectIdle now s.availableObjects (s.count - s.factory.min))
        { s with removeIdleScheduled := false } hmin
        (show s.factory.min + ((collectIdle now s.availableObjects
            (s.count - s.factory.min)).length : Int) ≤ s.count by omega)
      have hcount : (destroyEach (collectIdle now s.availableObjects
          (s.count - s.factory.min))
          { s with removeIdleScheduled := false }).1.count
          = s.count - (collectIdle now s.availableObjects
              (s.count - s.factory.min)).length := hde.1
      by_cases hav : (destroyEach (collectIdle now s.availableObjects
          (s.count - s.factory.min))
          { s with removeIdleScheduled := false }).1.availableObjects.length > 0
      · rw [if_pos hav, scheduleRemoveIdle_count, hcount]
        omega
      · rw [if_neg hav, hcount]
        omega

theorem reaperSweepBoundedByFloorWitness :
    (((removeIdle 50 sSweep).2.filter isDestroyEffect).length : Int)
        ≤ max (sSweep.count - sSweep.factory.min) 0 ∧
    (∃ c ∈ sSweep.availableObjects, c.obj = 5 ∧ c.timeout ≤ 50) ∧
    sSweep.factory.min ≤ (removeIdle 50 sSweep).1.count := by
  have h := reaperSweepBoundedByFloor sSweep 50
  exact ⟨h.1, h.2.1 5 (by decide), h.2.2 (by decide) (by decide)⟩

/-- C5 counterexample: the claim's consequence "after a reaper sweep
completes, `count ≥ min`" fails on a reachable run.  After `c5Events`
(the held handle is destroyed while the pool drains, so `_ensureMinimum`
is skipped and `count` drops to 0 < `min` = 1 with the reap timer still
pending) the timer fires; the sweep completes with `count` still 0. -/
theorem reaperSweepBelowMinCounterexample :
    (run (initPool facAsyncMin1) c5Events).removeIdleTimerPending = true ∧
    (step (run (initPool facAsyncMin1) c5Events) (.removeIdleFire 200)).1.count
      < (initPool facAsyncMin1).factory.min := by
  decide

end SequelizePool







